import Mathlib

/-!
Verification of the `asahi-nvram` command-line front end
(`src/asahi-nvram/src/main.rs`) against its specification.

The CLI is embedded shallowly: command-line arguments and values are byte
strings (`List Nat`, each entry the value of one byte of the UTF-8 encoded
argument; every delimiter the code splits on — `'='`, `':'`, `'%'` — is
ASCII, so byte-level splitting coincides with Rust's `str::split_once`).
Fallible steps return `Except`/`POut` values, and the effects `real_main`
performs against the `apple_nvram` container (which lives in a separate
crate, outside this repository's sources) are recorded as an explicit
event trace.
-/

set_option autoImplicit false

namespace AsahiNvram

/-- Payload of `Error::ApplyError` / `apple_nvram::Error::ApplyError`.
`std::io::Error` is opaque to this program (it is only carried through),
so it is modelled as an abstract token. -/
abbrev IoError := Nat

/-- The variable namespaces of `apple_nvram::VarType` used by the CLI. -/
inductive VarType where
  | Common
  | System
deriving DecidableEq

/-- The CLI error enum `Error` from `main.rs` lines 6–16, verbatim. -/
inductive Error where
  | Parse
  | SectionTooBig
  | ApplyError (e : IoError)
  | MissingPartitionName
  | MissingValue
  | VariableNotFound
  | UnknownPartition
  | InvalidHex
deriving DecidableEq

/-- The library error enum `apple_nvram::Error` (three variants, as matched
by the `From` impl in `main.rs` lines 18–26). -/
inductive NvError where
  | ParseError
  | SectionTooBig
  | ApplyError (e : IoError)
deriving DecidableEq

/-- The conversion `impl From<apple_nvram::Error> for Error`
(`main.rs` lines 18–26). -/
def errorFromNv : NvError → Error
  | .ParseError => .Parse
  | .SectionTooBig => .SectionTooBig
  | .ApplyError e => .ApplyError e

/-- Outcome of a Rust computation that can succeed, return an `Err`, or
panic (abort the process). The panic outcome is needed because `read_var`
indexes `val[i + 1..i + 3]` without a bounds check. -/
inductive POut (α : Type) where
  | ok (a : α)
  | err (e : Error)
  | panicked
deriving DecidableEq

/-- Propagation of `?`: apply `f` to a success value, pass errors and
panics through. -/
def POut.map {α β : Type} (f : α → β) : POut α → POut β
  | .ok a => .ok (f a)
  | .err e => .err e
  | .panicked => .panicked

/-- True exactly on `ok`. -/
def POut.isOk {α : Type} : POut α → Bool
  | .ok _ => true
  | _ => false

/-- Forget the success value, keeping which of the three outcomes occurred
and any error payload. -/
def POut.toOutcome {α : Type} : POut α → POut Unit
  | .ok _ => .ok ()
  | .err e => .err e
  | .panicked => .panicked

/-- Value of an ASCII hexadecimal digit byte (`0-9`, `a-f`, `A-F`),
`none` on any other byte. -/
def hexDigit? (c : Nat) : Option Nat :=
  if 48 ≤ c ∧ c ≤ 57 then some (c - 48)
  else if 97 ≤ c ∧ c ≤ 102 then some (c - 97 + 10)
  else if 65 ≤ c ∧ c ≤ 70 then some (c - 65 + 10)
  else none

/-- Whether a byte is an ASCII hexadecimal digit. -/
def isHexDigit (c : Nat) : Bool :=
  (hexDigit? c).isSome

/-- The numeric value of a hexadecimal digit byte (0 on non-digits). -/
def hexVal (c : Nat) : Nat :=
  (hexDigit? c).getD 0

/-- Digit-accumulation loop of `u8::from_str_radix(s, 16)`: every byte must
be a hexadecimal digit and the accumulated value must stay within `u8`
range, otherwise the parse fails. -/
def parseHexDigits (acc : Nat) : List Nat → Option Nat
  | [] => some acc
  | c :: rest =>
    match hexDigit? c with
    | some d => if acc * 16 + d ≤ 255 then parseHexDigits (acc * 16 + d) rest else none
    | none => none

/-- `u8::from_str_radix(s, 16)` on the bytes of `s`: an optional leading
`'+'` sign (a `'-'` sign is rejected for unsigned integers, and `'-'` is
not a hexadecimal digit, so it needs no special case), then a non-empty
run of hexadecimal digits, with overflow beyond 255 rejected. -/
def fromStrRadix16 (s : List Nat) : Option Nat :=
  match s with
  | [] => none
  | c :: rest =>
    if c = 43 then
      match rest with
      | [] => none
      | _ => parseHexDigits 0 rest
    else parseHexDigits 0 (c :: rest)

/-- The percent-escape decoder `read_var` (`main.rs` lines 124–144): scan
the value bytes; on a `'%'` (byte 37) parse the slice `val[i+1..i+3]` as a
hexadecimal byte and push it, otherwise push the byte unchanged. When the
`'%'` has fewer than two following bytes, the slice `val[i + 1..i + 3]` is
out of bounds and the program panics. A failed hex parse is
`Error::InvalidHex`. -/
def read_var : List Nat → POut (List Nat)
  | [] => .ok []
  | b :: rest =>
    if b = 37 then
      match rest with
      | c1 :: c2 :: rest2 =>
        match fromStrRadix16 [c1, c2] with
        | some v => (read_var rest2).map (fun tl => v :: tl)
        | none => .err .InvalidHex
      | _ => .panicked
    else
      (read_var rest).map (fun tl => b :: tl)

/-- Rust's `str::split_once(sep)` at byte level: split at the first
occurrence of `sep`, returning the bytes before and after it, or `none`
when `sep` does not occur. -/
def splitOnce (sep : Nat) : List Nat → Option (List Nat × List Nat)
  | [] => none
  | c :: rest =>
    if c = sep then some ([], rest)
    else
      match splitOnce sep rest with
      | some (pre, post) => some (c :: pre, post)
      | none => none

/-- The bytes of the partition token `"common"`. -/
def strCommon : List Nat := [99, 111, 109, 109, 111, 110]

/-- The bytes of the partition token `"system"`. -/
def strSystem : List Nat := [115, 121, 115, 116, 101, 109]

/-- `part_by_name` (`main.rs` lines 116–122): map the token `"common"` to
`VarType::Common`, `"system"` to `VarType::System`, anything else to
`Error::UnknownPartition`. -/
def part_by_name (name : List Nat) : Except Error VarType :=
  if name = strCommon then .ok .Common
  else if name = strSystem then .ok .System
  else .error .UnknownPartition

/-- The calls `real_main` makes against the `apple_nvram` container and
writer, recorded as a trace.  `prepare` is `nv.prepare_for_write()`,
`mkWriter` is the construction `MtdWriter::new(file)`, `applyCall` is
`nv.apply(..)`, `insert`/`remove` are `insert_variable`/`remove_variable`
on the active partition, `lookupVar` is `get_variable`, and `print` is the
`println!` of a looked-up value. -/
inductive Event where
  | prepare
  | mkWriter
  | applyCall
  | insert (typ : VarType) (name : List Nat) (value : List Nat)
  | remove (typ : VarType) (name : List Nat)
  | lookupVar (typ : VarType) (name : List Nat)
  | print (value : List Nat)
deriving DecidableEq

/-- Processing of one `write` argument (`main.rs` lines 93–96): split at
the first `'='` (byte 61, else `Error::MissingValue`), split the key at
the first `':'` (byte 58, else `Error::MissingPartitionName`), resolve the
partition token, and percent-decode the value with `read_var`. -/
def procWriteArg (v : List Nat) : POut (VarType × List Nat × List Nat) :=
  match splitOnce 61 v with
  | none => .err .MissingValue
  | some (key, value) =>
    match splitOnce 58 key with
    | none => .err .MissingPartitionName
    | some (part, name) =>
      match part_by_name part with
      | .error e => .err e
      | .ok typ => (read_var value).map (fun bytes => (typ, name, bytes))

/-- Processing of one `delete` argument (`main.rs` lines 105–106): split
at the first `':'` and resolve the partition token. -/
def procDeleteArg (v : List Nat) : Except Error (VarType × List Nat) :=
  match splitOnce 58 v with
  | none => .error .MissingPartitionName
  | some (part, name) =>
    match part_by_name part with
    | .error e => .error e
    | .ok typ => .ok (typ, name)

/-- Outcome of one `read` argument (`main.rs` lines 75–79): the token may
fail to parse, or parse to a `(type, name)` pair whose lookup in the
active partition either finds a value or comes back empty. -/
inductive ReadStep where
  | found (typ : VarType) (name : List Nat) (value : List Nat)
  | absent (typ : VarType) (name : List Nat)
  | bad (e : Error)
deriving DecidableEq

/-- Processing of one `read` argument against a lookup function `f`
standing for `active.get_variable` of the parsed container. -/
def procReadArg (f : VarType → List Nat → Option (List Nat)) (v : List Nat) : ReadStep :=
  match splitOnce 58 v with
  | none => .bad .MissingPartitionName
  | some (part, name) =>
    match part_by_name part with
    | .error e => .bad e
    | .ok typ =>
      match f typ name with
      | none => .absent typ name
      | some value => .found typ name value

/-- Loop of the `write` subcommand over its arguments (`main.rs` lines
92–98): each well-formed argument stages an insert; the first failing
argument aborts with its error (or panic) before `MtdWriter::new` and
`nv.apply` are reached; when all arguments succeed, the writer is
constructed and `apply` is called, with outcome `applyRes`. -/
def writeGo (applyRes : Except Error Unit) : List (List Nat) → List Event × POut Unit
  | [] =>
    ([Event.mkWriter, Event.applyCall],
      match applyRes with
      | .ok _ => .ok ()
      | .error e => .err e)
  | a :: rest =>
    match procWriteArg a with
    | .ok (typ, name, value) =>
      (Event.insert typ name value :: (writeGo applyRes rest).1, (writeGo applyRes rest).2)
    | .err e => ([], .err e)
    | .panicked => ([], .panicked)

/-- The `write` subcommand (`main.rs` lines 88–99): `prepare_for_write`
runs first, then the argument loop, then (if every argument succeeded)
`nv.apply(&mut MtdWriter::new(file))`. -/
def writeCmd (args : List (List Nat)) (applyRes : Except Error Unit) : List Event × POut Unit :=
  (Event.prepare :: (writeGo applyRes args).1, (writeGo applyRes args).2)

/-- Loop of the `delete` subcommand over its arguments (`main.rs` lines
104–108). -/
def deleteGo (applyRes : Except Error Unit) : List (List Nat) → List Event × POut Unit
  | [] =>
    ([Event.mkWriter, Event.applyCall],
      match applyRes with
      | .ok _ => .ok ()
      | .error e => .err e)
  | a :: rest =>
    match procDeleteArg a with
    | .ok (typ, name) =>
      (Event.remove typ name :: (deleteGo applyRes rest).1, (deleteGo applyRes rest).2)
    | .error e => ([], .err e)

/-- The `delete` subcommand (`main.rs` lines 100–110): `prepare_for_write`
first, then the argument loop, then `apply`. -/
def deleteCmd (args : List (List Nat)) (applyRes : Except Error Unit) : List Event × POut Unit :=
  (Event.prepare :: (deleteGo applyRes args).1, (deleteGo applyRes args).2)

/-- The `read` subcommand with explicit variable arguments (`main.rs`
lines 73–81): each argument is parsed, looked up, and its value printed;
the first failure aborts the loop, an absent variable with
`Error::VariableNotFound`. -/
def readCmd (f : VarType → List Nat → Option (List Nat)) : List (List Nat) → List Event × POut Unit
  | [] => ([], .ok ())
  | a :: rest =>
    match procReadArg f a with
    | .found typ name value =>
      (Event.lookupVar typ name :: Event.print value :: (readCmd f rest).1, (readCmd f rest).2)
    | .absent typ name => ([Event.lookupVar typ name], .err .VariableNotFound)
    | .bad e => ([], .err e)

/-- Well-formedness of a percent-escaped value in the sense of the spec:
every `'%'` in the scan begins a `%XX` triplet whose two following bytes
are hexadecimal digits. -/
def wellFormedEsc : List Nat → Bool
  | [] => true
  | b :: rest =>
    if b = 37 then
      match rest with
      | c1 :: c2 :: rest2 => isHexDigit c1 && isHexDigit c2 && wellFormedEsc rest2
      | _ => false
    else wellFormedEsc rest

/-- Modelled from the spec: the decoder described in §6, "a simple scan
substituting each `%XX` triplet with the single decoded byte and passing
all other bytes through unchanged".  On a malformed escape it passes the
`'%'` through; only its values on well-formed inputs are used. -/
def specDecode : List Nat → List Nat
  | [] => []
  | b :: rest =>
    if b = 37 then
      match rest with
      | c1 :: c2 :: rest2 =>
        if isHexDigit c1 && isHexDigit c2 then
          (hexVal c1 * 16 + hexVal c2) :: specDecode rest2
        else b :: specDecode (c1 :: c2 :: rest2)
      | _ => [b]
    else b :: specDecode rest

/-- Whether the byte string contains, at any position, a `'%'` whose two
following bytes fail to parse as a hexadecimal byte via
`u8::from_str_radix(_, 16)`. -/
def hasBadEscape : List Nat → Bool
  | b :: c1 :: c2 :: rest =>
    (b == 37 && (fromStrRadix16 [c1, c2]).isNone) || hasBadEscape (c1 :: c2 :: rest)
  | _ => false

/-- Modelled from the spec: the *InvalidInput* error kind of §7 ("malformed
CLI-level encoding, unknown partition token, missing required argument"),
as a predicate on the CLI error enum. -/
def isInvalidInput : Error → Bool
  | .MissingPartitionName => true
  | .MissingValue => true
  | .UnknownPartition => true
  | .InvalidHex => true
  | _ => false

/-- Modelled from the spec: an in-memory partition of the `apple_nvram`
container (§3), which is not part of this repository's sources.  It holds
a generation counter and the variable set, an association from
`(type, name)` to value in storage order. -/
structure Partition where
  generation : Nat
  vars : List ((VarType × List Nat) × List Nat)
deriving DecidableEq

/-- Modelled from the spec: the container (§3), holding the two redundant
partition slots ("bank A" and "bank B") and the index of the slot that
`active_part_mut` currently exposes. -/
structure Nvram where
  bank0 : Partition
  bank1 : Partition
  active : Bool
deriving DecidableEq

/-- The partition stored in slot `i`. -/
def Nvram.getBank (nv : Nvram) (i : Bool) : Partition :=
  if i then nv.bank1 else nv.bank0

/-- Replace the partition stored in slot `i`. -/
def Nvram.setBank (nv : Nvram) (i : Bool) (p : Partition) : Nvram :=
  if i then { nv with bank1 := p } else { nv with bank0 := p }

/-- Modelled from the spec: `active_part_mut` (§4.3), the currently
authoritative partition for reads and mutations. -/
def Nvram.activePart (nv : Nvram) : Partition :=
  nv.getBank nv.active

/-- Modelled from the spec: `prepare_for_write` (§4.3) "selects the
inactive region as the staging target, seeds it with the active
partition's current variable set, and sets its generation to one greater
than the active partition's"; subsequent mutations are staged against it,
so it becomes the slot `active_part_mut` returns. -/
def Nvram.prepare_for_write (nv : Nvram) : Nvram :=
  let staged : Partition :=
    { generation := nv.activePart.generation + 1, vars := nv.activePart.vars }
  { nv.setBank (!nv.active) staged with active := !nv.active }

/-- The raw contents of the two fixed-size regions of the MTD device,
indexed like the container's slots. -/
def Device := Bool → List Nat

/-- Modelled from the spec: the Flash Writer (§4.4) "performs the
erase-then-program sequence required by the physical medium for the
addressed region only; never touches other regions".  `outcome` is the
injected result of the physical write: on success the addressed region
holds `bytes`; on failure the addressed region's contents are unspecified
(the arbitrary `garbage`), and every other region is untouched either
way. -/
def mtdWrite (dev : Device) (idx : Bool) (bytes : List Nat) (outcome : Option IoError)
    (garbage : List Nat) : Option IoError × Device :=
  (outcome,
    fun i =>
      if i = idx then
        match outcome with
        | none => bytes
        | some _ => garbage
      else dev i)

/-- Modelled from the spec: `apply` (§4.3) serializes the staging
partition (which, after `prepare_for_write`, is the slot `active_part_mut`
exposes) and submits the bytes plus that slot's region to the Flash
Writer; the previously active on-device region is the other slot.  The
serialization function `ser` is a parameter, since the on-disk layout and
checksum are platform constants outside this repository.  A writer
failure is surfaced as `Error::ApplyError` and the in-memory container is
left as it was. -/
def Nvram.apply (ser : Partition → List Nat) (nv : Nvram) (dev : Device)
    (outcome : Option IoError) (garbage : List Nat) :
    Except Error Unit × Nvram × Device :=
  let bytes := ser nv.activePart
  let (res, dev') := mtdWrite dev nv.active bytes outcome garbage
  match res with
  | none => (.ok (), nv, dev')
  | some e => (.error (Error.ApplyError e), nv, dev')

theorem hexDigit?_le {c d : Nat} (h : hexDigit? c = some d) : d ≤ 15 := by
  unfold hexDigit? at h
  split at h
  · simp only [Option.some.injEq] at h
    omega
  · split at h
    · simp only [Option.some.injEq] at h
      omega
    · split at h
      · simp only [Option.some.injEq] at h
        omega
      · exact Option.noConfusion h

theorem hexVal_eq {c d : Nat} (h : hexDigit? c = some d) : hexVal c = d := by
  simp [hexVal, h]

theorem read_var_nil : read_var [] = .ok [] := rfl

theorem read_var_pct3 (c1 c2 : Nat) (rest : List Nat) :
    read_var (37 :: c1 :: c2 :: rest) =
      match fromStrRadix16 [c1, c2] with
      | some v => (read_var rest).map (fun tl => v :: tl)
      | none => .err .InvalidHex := rfl

theorem read_var_pct0 : read_var [37] = .panicked := rfl

theorem read_var_pct1 (c : Nat) : read_var [37, c] = .panicked := rfl

theorem read_var_cons_ne {b : Nat} (rest : List Nat) (h : b ≠ 37) :
    read_var (b :: rest) = (read_var rest).map (fun tl => b :: tl) := by
  rw [read_var.eq_def]
  simp [h]

theorem hasBadEscape_nil : hasBadEscape [] = false := rfl

theorem hasBadEscape_one (a : Nat) : hasBadEscape [a] = false := rfl

theorem hasBadEscape_two (a b : Nat) : hasBadEscape [a, b] = false := rfl

theorem hasBadEscape_cons3 (b c1 c2 : Nat) (rest : List Nat) :
    hasBadEscape (b :: c1 :: c2 :: rest) =
      ((b == 37 && (fromStrRadix16 [c1, c2]).isNone) || hasBadEscape (c1 :: c2 :: rest)) := rfl

theorem wellFormedEsc_nil : wellFormedEsc [] = true := rfl

theorem wellFormedEsc_pct3 (c1 c2 : Nat) (rest : List Nat) :
    wellFormedEsc (37 :: c1 :: c2 :: rest) =
      (isHexDigit c1 && isHexDigit c2 && wellFormedEsc rest) := rfl

theorem wellFormedEsc_pct0 : wellFormedEsc [37] = false := rfl

theorem wellFormedEsc_pct1 (c : Nat) : wellFormedEsc [37, c] = false := rfl

theorem wellFormedEsc_cons_ne {b : Nat} (rest : List Nat) (h : b ≠ 37) :
    wellFormedEsc (b :: rest) = wellFormedEsc rest := by
  rw [wellFormedEsc.eq_def]
  simp [h]

theorem specDecode_pct3_hex {c1 c2 : Nat} (rest : List Nat) (hx1 : isHexDigit c1 = true)
    (hx2 : isHexDigit c2 = true) :
    specDecode (37 :: c1 :: c2 :: rest) = (hexVal c1 * 16 + hexVal c2) :: specDecode rest := by
  rw [specDecode.eq_def]
  simp [hx1, hx2]

theorem specDecode_cons_ne {b : Nat} (rest : List Nat) (h : b ≠ 37) :
    specDecode (b :: rest) = b :: specDecode rest := by
  rw [specDecode.eq_def]
  simp [h]

theorem parseHexDigits_none {c : Nat} (hd : hexDigit? c = none) :
    ∀ l : List Nat, c ∈ l → ∀ acc, parseHexDigits acc l = none := by
  intro l
  induction l with
  | nil => intro hc; cases hc
  | cons x xs ih =>
    intro hc acc
    rcases List.mem_cons.mp hc with h | h
    · subst h
      simp [parseHexDigits, hd]
    · cases hx : hexDigit? x with
      | none => simp [parseHexDigits, hx]
      | some d =>
        simp only [parseHexDigits, hx]
        split
        · exact ih h _
        · rfl

theorem fromStrRadix16_hex {c1 c2 : Nat} (h1 : isHexDigit c1 = true) (h2 : isHexDigit c2 = true) :
    fromStrRadix16 [c1, c2] = some (hexVal c1 * 16 + hexVal c2) := by
  obtain ⟨d1, hd1⟩ := Option.isSome_iff_exists.mp h1
  obtain ⟨d2, hd2⟩ := Option.isSome_iff_exists.mp h2
  have hne : c1 ≠ 43 := by
    intro e
    rw [e, show hexDigit? 43 = none from rfl] at hd1
    exact Option.noConfusion hd1
  have e1 := hexDigit?_le hd1
  have e2 := hexDigit?_le hd2
  have b1 : d1 ≤ 255 := by omega
  have b2 : d1 * 16 + d2 ≤ 255 := by omega
  simp [fromStrRadix16, hne, parseHexDigits, hd1, hd2, b1, b2, hexVal_eq hd1, hexVal_eq hd2]

theorem fromStrRadix16_ne37 {c1 c2 v : Nat} (h : fromStrRadix16 [c1, c2] = some v) :
    c1 ≠ 37 ∧ c2 ≠ 37 := by
  have h37 : hexDigit? 37 = none := rfl
  constructor
  · rintro rfl
    rw [show fromStrRadix16 [37, c2] = none from ?_] at h
    · exact Option.noConfusion h
    · have hne : (37 : Nat) ≠ 43 := by omega
      simp only [fromStrRadix16, if_neg hne]
      exact parseHexDigits_none h37 _ (List.mem_cons_self 37 [c2]) 0
  · rintro rfl
    by_cases hc : c1 = 43
    · subst hc
      rw [show fromStrRadix16 [43, 37] = none from ?_] at h
      · exact Option.noConfusion h
      · simp only [fromStrRadix16, if_pos rfl]
        exact parseHexDigits_none h37 _ (List.mem_cons_self 37 []) 0
    · rw [show fromStrRadix16 [c1, 37] = none from ?_] at h
      · exact Option.noConfusion h
      · simp only [fromStrRadix16, if_neg hc]
        exact parseHexDigits_none h37 _ (List.mem_cons_of_mem c1 (List.mem_cons_self 37 [])) 0

theorem hasBadEscape_tail {c1 c2 : Nat} {rest : List Nat}
    (h : hasBadEscape (c1 :: c2 :: rest) = true) (h1 : c1 ≠ 37) (h2 : c2 ≠ 37) :
    hasBadEscape rest = true := by
  match rest with
  | [] => rw [hasBadEscape_two] at h; exact Bool.noConfusion h
  | r0 :: rest' =>
    rw [hasBadEscape_cons3] at h
    simp only [Bool.or_eq_true, Bool.and_eq_true, beq_iff_eq] at h
    rcases h with ⟨hl, _⟩ | hr
    · exact absurd hl h1
    · match rest' with
      | [] => rw [hasBadEscape_two] at hr; exact Bool.noConfusion hr
      | r1 :: rest'' =>
        rw [hasBadEscape_cons3] at hr
        simp only [Bool.or_eq_true, Bool.and_eq_true, beq_iff_eq] at hr
        rcases hr with ⟨hl', _⟩ | hr'
        · exact absurd hl' h2
        · exact hr'

theorem read_var_of_hasBadEscape :
    ∀ (n : Nat) (l : List Nat), l.length ≤ n → hasBadEscape l = true →
      read_var l = .err .InvalidHex := by
  intro n
  induction n with
  | zero =>
    intro l hl hb
    match l with
    | [] => exact Bool.noConfusion hb
    | _ :: _ => simp at hl
  | succ n ih =>
    intro l hl hb
    match l with
    | [] => exact Bool.noConfusion hb
    | [a] => rw [hasBadEscape_one] at hb; exact Bool.noConfusion hb
    | [a, b] => rw [hasBadEscape_two] at hb; exact Bool.noConfusion hb
    | a :: c1 :: c2 :: rest =>
      by_cases ha : a = 37
      · subst ha
        cases hfs : fromStrRadix16 [c1, c2] with
        | none => rw [read_var_pct3, hfs]
        | some v =>
          have hb' : hasBadEscape (c1 :: c2 :: rest) = true := by
            rw [hasBadEscape_cons3, hfs] at hb
            simpa using hb
          obtain ⟨h1, h2⟩ := fromStrRadix16_ne37 hfs
          have hrest : hasBadEscape rest = true := hasBadEscape_tail hb' h1 h2
          have hlen : rest.length ≤ n := by
            simp only [List.length_cons] at hl
            omega
          have hr := ih rest hlen hrest
          rw [read_var_pct3, hfs, hr]
          rfl
      · have hb' : hasBadEscape (c1 :: c2 :: rest) = true := by
          rw [hasBadEscape_cons3] at hb
          simp only [Bool.or_eq_true, Bool.and_eq_true, beq_iff_eq] at hb
          rcases hb with ⟨hl', _⟩ | hr'
          · exact absurd hl' ha
          · exact hr'
        have hlen : (c1 :: c2 :: rest).length ≤ n := by
          simp only [List.length_cons] at hl ⊢
          omega
        have hr := ih _ hlen hb'
        rw [read_var_cons_ne _ ha, hr]
        rfl

theorem read_var_of_wellFormed :
    ∀ (n : Nat) (l : List Nat), l.length ≤ n → wellFormedEsc l = true →
      read_var l = .ok (specDecode l) := by
  intro n
  induction n with
  | zero =>
    intro l hl _
    match l with
    | [] => rfl
    | _ :: _ => simp at hl
  | succ n ih =>
    intro l hl hw
    match l with
    | [] => rfl
    | a :: rest =>
      by_cases ha : a = 37
      · subst ha
        match rest with
        | [] => exact Bool.noConfusion (wellFormedEsc_pct0 ▸ hw)
        | [c1] => exact Bool.noConfusion (wellFormedEsc_pct1 c1 ▸ hw)
        | c1 :: c2 :: rest2 =>
          rw [wellFormedEsc_pct3] at hw
          simp only [Bool.and_eq_true] at hw
          obtain ⟨⟨hx1, hx2⟩, hw2⟩ := hw
          have hfs := fromStrRadix16_hex hx1 hx2
          have hlen : rest2.length ≤ n := by
            simp only [List.length_cons] at hl
            omega
          have hr := ih rest2 hlen hw2
          rw [read_var_pct3, hfs, hr, specDecode_pct3_hex rest2 hx1 hx2]
          rfl
      · have hw' : wellFormedEsc rest = true := by
          rw [wellFormedEsc_cons_ne rest ha] at hw
          exact hw
        have hlen : rest.length ≤ n := by
          simp only [List.length_cons] at hl
          omega
        have hr := ih rest hlen hw'
        rw [read_var_cons_ne rest ha, hr, specDecode_cons_ne rest ha]
        rfl

theorem read_var_noPercent {l : List Nat} (h : 37 ∉ l) : read_var l = .ok l := by
  induction l with
  | nil => rfl
  | cons a rest ih =>
    have ha : a ≠ 37 := fun e => h (e ▸ List.mem_cons_self a rest)
    have h' : (37 : Nat) ∉ rest := fun m => h (List.mem_cons_of_mem _ m)
    rw [read_var_cons_ne rest ha, ih h']
    rfl

theorem splitOnce_eq_none {sep : Nat} {l : List Nat} (h : sep ∉ l) : splitOnce sep l = none := by
  induction l with
  | nil => rfl
  | cons c rest ih =>
    have hc : c ≠ sep := fun e => h (e ▸ List.mem_cons_self c rest)
    have h' : sep ∉ rest := fun m => h (List.mem_cons_of_mem _ m)
    simp [splitOnce, hc, ih h']

theorem splitOnce_append {sep : Nat} {key val : List Nat} (h : sep ∉ key) :
    splitOnce sep (key ++ sep :: val) = some (key, val) := by
  induction key with
  | nil => simp [splitOnce]
  | cons c rest ih =>
    have hc : c ≠ sep := fun e => h (e ▸ List.mem_cons_self c rest)
    have h' : sep ∉ rest := fun m => h (List.mem_cons_of_mem _ m)
    simp [splitOnce, hc, ih h']

theorem writeGo_bad :
    ∀ (pre : List (List Nat)) (a : List Nat) (post : List (List Nat)) (r : Except Error Unit),
      (∀ b ∈ pre, (procWriteArg b).isOk = true) → (procWriteArg a).isOk = false →
      (writeGo r (pre ++ a :: post)).2 = (procWriteArg a).toOutcome ∧
      Event.applyCall ∉ (writeGo r (pre ++ a :: post)).1 ∧
      Event.mkWriter ∉ (writeGo r (pre ++ a :: post)).1 := by
  intro pre
  induction pre with
  | nil =>
    intro a post r _ hbad
    cases hpa : procWriteArg a with
    | ok x =>
      rw [hpa] at hbad
      exact Bool.noConfusion hbad
    | err e =>
      simp [writeGo, hpa, POut.toOutcome]
    | panicked =>
      simp [writeGo, hpa, POut.toOutcome]
  | cons b pre' ih =>
    intro a post r hpre hbad
    have hb := hpre b (List.mem_cons_self b pre')
    cases hpb : procWriteArg b with
    | err e =>
      rw [hpb] at hb
      exact Bool.noConfusion hb
    | panicked =>
      rw [hpb] at hb
      exact Bool.noConfusion hb
    | ok x =>
      obtain ⟨typ, name, value⟩ := x
      have hih := ih a post r (fun c hc => hpre c (List.mem_cons_of_mem _ hc)) hbad
      have hstep : writeGo r ((b :: pre') ++ a :: post) =
          (Event.insert typ name value :: (writeGo r (pre' ++ a :: post)).1,
            (writeGo r (pre' ++ a :: post)).2) := by
        simp [writeGo, hpb]
      rw [hstep]
      refine ⟨hih.1, ?_, ?_⟩
      · intro hmem
        rcases List.mem_cons.mp hmem with h | h
        · exact Event.noConfusion h
        · exact hih.2.1 h
      · intro hmem
        rcases List.mem_cons.mp hmem with h | h
        · exact Event.noConfusion h
        · exact hih.2.2 h

theorem writeGo_no_prepare : ∀ (r : Except Error Unit) (args : List (List Nat)),
    Event.prepare ∉ (writeGo r args).1 := by
  intro r args
  induction args with
  | nil =>
    intro hmem
    rcases List.mem_cons.mp hmem with h | h
    · exact Event.noConfusion h
    · rcases List.mem_cons.mp h with h' | h'
      · exact Event.noConfusion h'
      · cases h'
  | cons a rest ih =>
    cases hpa : procWriteArg a with
    | ok x =>
      obtain ⟨typ, name, value⟩ := x
      intro hmem
      rw [show writeGo r (a :: rest) =
          (Event.insert typ name value :: (writeGo r rest).1, (writeGo r rest).2) from by
        simp [writeGo, hpa]] at hmem
      rcases List.mem_cons.mp hmem with h | h
      · exact Event.noConfusion h
      · exact ih h
    | err e =>
      intro hmem
      rw [show writeGo r (a :: rest) = ([], .err e) from by simp [writeGo, hpa]] at hmem
      cases hmem
    | panicked =>
      intro hmem
      rw [show writeGo r (a :: rest) = ([], .panicked) from by simp [writeGo, hpa]] at hmem
      cases hmem

theorem deleteGo_no_prepare : ∀ (r : Except Error Unit) (args : List (List Nat)),
    Event.prepare ∉ (deleteGo r args).1 := by
  intro r args
  induction args with
  | nil =>
    intro hmem
    rcases List.mem_cons.mp hmem with h | h
    · exact Event.noConfusion h
    · rcases List.mem_cons.mp h with h' | h'
      · exact Event.noConfusion h'
      · cases h'
  | cons a rest ih =>
    cases hpa : procDeleteArg a with
    | ok x =>
      obtain ⟨typ, name⟩ := x
      intro hmem
      rw [show deleteGo r (a :: rest) =
          (Event.remove typ name :: (deleteGo r rest).1, (deleteGo r rest).2) from by
        simp [deleteGo, hpa]] at hmem
      rcases List.mem_cons.mp hmem with h | h
      · exact Event.noConfusion h
      · exact ih h
    | error e =>
      intro hmem
      rw [show deleteGo r (a :: rest) = ([], .err e) from by simp [deleteGo, hpa]] at hmem
      cases hmem

theorem readCmd_stops :
    ∀ (f : VarType → List Nat → Option (List Nat)) (pre : List (List Nat)) (a : List Nat)
      (post : List (List Nat)) (t : VarType) (n : List Nat),
      (∀ b ∈ pre, ∃ t' n' v', procReadArg f b = .found t' n' v') →
      procReadArg f a = .absent t n →
      readCmd f (pre ++ a :: post) = readCmd f (pre ++ [a]) ∧
      (readCmd f (pre ++ a :: post)).2 = .err .VariableNotFound ∧
      (∀ b ∈ pre, ∀ t' n' v', procReadArg f b = .found t' n' v' →
        Event.print v' ∈ (readCmd f (pre ++ a :: post)).1) := by
  intro f pre
  induction pre with
  | nil =>
    intro a post t n _ habs
    have h1 : readCmd f ([] ++ a :: post) = ([Event.lookupVar t n], .err .VariableNotFound) := by
      simp [readCmd, habs]
    have h2 : readCmd f ([] ++ [a]) = ([Event.lookupVar t n], .err .VariableNotFound) := by
      simp [readCmd, habs]
    refine ⟨h1.trans h2.symm, by rw [h1], ?_⟩
    intro b hb
    cases hb
  | cons b pre' ih =>
    intro a post t n hpre habs
    obtain ⟨tb, nb, vb, hfb⟩ := hpre b (List.mem_cons_self b pre')
    have hih := ih a post t n (fun c hc => hpre c (List.mem_cons_of_mem _ hc)) habs
    have hstep1 : readCmd f ((b :: pre') ++ a :: post) =
        (Event.lookupVar tb nb :: Event.print vb :: (readCmd f (pre' ++ a :: post)).1,
          (readCmd f (pre' ++ a :: post)).2) := by
      simp [readCmd, hfb]
    have hstep2 : readCmd f ((b :: pre') ++ [a]) =
        (Event.lookupVar tb nb :: Event.print vb :: (readCmd f (pre' ++ [a])).1,
          (readCmd f (pre' ++ [a])).2) := by
      simp [readCmd, hfb]
    refine ⟨?_, ?_, ?_⟩
    · rw [hstep1, hstep2, hih.1]
    · rw [hstep1]
      exact hih.2.1
    · intro c hc t' n' v' hfc
      rw [hstep1]
      rcases List.mem_cons.mp hc with h | h
      · subst h
        rw [hfb] at hfc
        obtain ⟨_, _, hv⟩ := ReadStep.found.inj hfc.symm
        exact hv ▸ List.mem_cons_of_mem _ (List.mem_cons_self _ _)
      · exact List.mem_cons_of_mem _ (List.mem_cons_of_mem _ (hih.2.2 c h t' n' v' hfc))

/-- Claim C1 (amended): in the `write` subcommand, when the first
non-succeeding per-variable step fails with an error (an argument without
`'='`, a key without `':'`, an unrecognized partition token, or a
percent-escape whose two following characters do not parse as a hex
byte), `real_main` returns exactly that error; when the failing step is a
percent-escape truncated at the end of the value, the process aborts by
panic instead of returning the error.  In either case neither `nv.apply`
nor the construction of the `MtdWriter` is ever reached, so no bytes are
written to the device file. -/
theorem claim_C1_theorem (pre : List (List Nat)) (a : List Nat) (post : List (List Nat))
    (r : Except Error Unit) (hpre : ∀ b ∈ pre, (procWriteArg b).isOk = true)
    (hbad : (procWriteArg a).isOk = false) :
    (writeCmd (pre ++ a :: post) r).2 = (procWriteArg a).toOutcome ∧
    Event.applyCall ∉ (writeCmd (pre ++ a :: post) r).1 ∧
    Event.mkWriter ∉ (writeCmd (pre ++ a :: post) r).1 := by
  have h := writeGo_bad pre a post r hpre hbad
  refine ⟨h.1, ?_, ?_⟩
  · intro hmem
    simp only [writeCmd] at hmem
    rcases List.mem_cons.mp hmem with h' | h'
    · exact Event.noConfusion h'
    · exact h.2.1 h'
  · intro hmem
    simp only [writeCmd] at hmem
    rcases List.mem_cons.mp hmem with h' | h'
    · exact Event.noConfusion h'
    · exact h.2.2 h'

/-- Witness for C1: with a first argument `common:x=a` that parses and a
second argument `z` lacking `'='`, the `write` subcommand returns
`MissingValue` and neither `apply` nor the writer construction appears in
the trace. -/
theorem claim_C1_witness :
    (writeCmd ([[99, 111, 109, 109, 111, 110, 58, 120, 61, 97]] ++ [122] :: []) (.ok ())).2 =
      (procWriteArg [122]).toOutcome ∧
    Event.applyCall ∉
      (writeCmd ([[99, 111, 109, 109, 111, 110, 58, 120, 61, 97]] ++ [122] :: []) (.ok ())).1 ∧
    Event.mkWriter ∉
      (writeCmd ([[99, 111, 109, 109, 111, 110, 58, 120, 61, 97]] ++ [122] :: []) (.ok ())).1 :=
  claim_C1_theorem [[99, 111, 109, 109, 111, 110, 58, 120, 61, 97]] [122] [] (.ok ())
    (by
      intro b hb
      rw [List.mem_singleton] at hb
      subst hb
      decide)
    (by decide)

/-- Counterexample to C1 as stated: the argument `common:x=%4` contains a
malformed (truncated) percent-escape, yet `real_main` does not return an
error for it — the run panics (outcome `panicked`, not `err`). -/
theorem claim_C1_counterexample :
    procWriteArg [99, 111, 109, 109, 111, 110, 58, 120, 61, 37, 52] = .panicked ∧
    writeCmd [[99, 111, 109, 109, 111, 110, 58, 120, 61, 37, 52]] (.ok ()) =
      ([Event.prepare], .panicked) ∧
    ∀ e : Error,
      (writeCmd [[99, 111, 109, 109, 111, 110, 58, 120, 61, 37, 52]] (.ok ())).2 ≠ .err e := by
  refine ⟨by decide, by decide, ?_⟩
  intro e h
  rw [show (writeCmd [[99, 111, 109, 109, 111, 110, 58, 120, 61, 37, 52]] (Except.ok ())).2 =
      (POut.panicked : POut Unit) from by decide] at h
  exact POut.noConfusion h

/-- Claim C2: when the Flash Writer fails during `apply`, the call reports
`ApplyError` with the writer's error, the on-device region holding the
previously active partition (the slot other than the staging slot) is
byte-for-byte untouched, and `active_part_mut` afterwards still returns
the pre-`apply` partition — generation and variable set unchanged.
Quantified over every serialization function, container state, device
state, injected error and post-failure garbage contents. -/
theorem claim_C2_theorem (ser : Partition → List Nat) (nv : Nvram) (dev : Device)
    (e : IoError) (garbage : List Nat) :
    (Nvram.apply ser nv dev (some e) garbage).1 = .error (.ApplyError e) ∧
    (Nvram.apply ser nv dev (some e) garbage).2.2 (!nv.active) = dev (!nv.active) ∧
    (Nvram.apply ser nv dev (some e) garbage).2.1.activePart = nv.activePart := by
  refine ⟨rfl, ?_, rfl⟩
  show (if (!nv.active) = nv.active then garbage else dev (!nv.active)) = dev (!nv.active)
  rw [if_neg (Bool.not_ne_self nv.active)]

/-- Claim C3: `read_var` scans left to right and, whenever every `'%'` in
the input begins a well-formed `%XX` triplet (two hexadecimal digits),
returns exactly the spec's substitution — each triplet replaced by the
byte it denotes, all other bytes passed through; in particular `"%41%42"`
decodes to the bytes of `"AB"`, and any input without `'%'` decodes to
itself. -/
theorem claim_C3_theorem :
    (∀ l : List Nat, wellFormedEsc l = true → read_var l = .ok (specDecode l)) ∧
    read_var [37, 52, 49, 37, 52, 50] = .ok [65, 66] ∧
    (∀ l : List Nat, 37 ∉ l → read_var l = .ok l) :=
  ⟨fun l hw => read_var_of_wellFormed l.length l le_rfl hw,
   by decide,
   fun _ h => read_var_noPercent h⟩

/-- Witness for C3: the well-formed input `"%41x"` decodes to its
substitution, and the percent-free input `"xy"` decodes to itself. -/
theorem claim_C3_witness :
    read_var [37, 52, 49, 120] = .ok (specDecode [37, 52, 49, 120]) ∧
    read_var [120, 121] = .ok [120, 121] :=
  ⟨claim_C3_theorem.1 [37, 52, 49, 120] (by decide),
   claim_C3_theorem.2.2 [120, 121] (by decide)⟩

/-- Claim C4 (code behavior at the failing input): on a value whose `'%'`
is followed by fewer than two further characters, `read_var` panics — the
slice `val[i + 1..i + 3]` is out of bounds — instead of returning the
decode error the claim and spec require. -/
theorem claim_C4_theorem :
    read_var [37, 52] = .panicked ∧
    read_var [37] = .panicked ∧
    read_var [97, 98, 37, 52] = .panicked := by
  decide

/-- Counterexample to C5 as stated: in `"%+1"` the `'%'` is followed by
`'+'` and `'1'`, which are not both hexadecimal digits, yet `read_var`
does not return `InvalidHex` — `u8::from_str_radix` accepts the leading
`'+'` sign and the input decodes to the single byte 1. -/
theorem claim_C5_counterexample :
    read_var [37, 43, 49] = .ok [1] ∧ isHexDigit 43 = false := by
  decide

/-- Claim C5 (amended): for every input string in which some `'%'` is
followed by two characters that do not parse as a hexadecimal byte under
`u8::from_str_radix(_, 16)` (two hex digits, or a `'+'` sign followed by
a hex digit), `read_var` returns the `InvalidHex` decode error and no
decoded value. -/
theorem claim_C5_theorem (l : List Nat) (h : hasBadEscape l = true) :
    read_var l = .err .InvalidHex :=
  read_var_of_hasBadEscape l.length l le_rfl h

/-- Witness for C5: `"x%zz"` contains a `'%'` followed by two non-parsing
characters and decodes to the `InvalidHex` error. -/
theorem claim_C5_witness : read_var [120, 37, 122, 122] = .err .InvalidHex :=
  claim_C5_theorem [120, 37, 122, 122] (by decide)

/-- Claim C6: `part_by_name` maps the token `"common"` to
`VarType::Common` and `"system"` to `VarType::System`, and every other
token to the `UnknownPartition` error — never to a default type. -/
theorem claim_C6_theorem :
    part_by_name strCommon = .ok .Common ∧
    part_by_name strSystem = .ok .System ∧
    ∀ s : List Nat, s ≠ strCommon → s ≠ strSystem →
      part_by_name s = .error .UnknownPartition := by
  refine ⟨rfl, rfl, ?_⟩
  intro s h1 h2
  simp [part_by_name, h1, h2]

/-- Witness for C6: the token `"foo"` is neither `"common"` nor
`"system"` and resolves to `UnknownPartition`. -/
theorem claim_C6_witness : part_by_name [102, 111, 111] = .error .UnknownPartition :=
  claim_C6_theorem.2.2 [102, 111, 111] (by decide) (by decide)

/-- Claim C7: a variable token without `':'` (byte 58) yields
`MissingPartitionName` in the read, write and delete paths (for write,
the key part before `'='`), a write argument without `'='` (byte 61)
yields `MissingValue`, and these are distinct error values (both of the
spec's InvalidInput kind). -/
theorem claim_C7_theorem :
    (∀ (f : VarType → List Nat → Option (List Nat)) (v : List Nat), 58 ∉ v →
      procReadArg f v = .bad .MissingPartitionName) ∧
    (∀ v : List Nat, 58 ∉ v → procDeleteArg v = .error .MissingPartitionName) ∧
    (∀ key val : List Nat, 61 ∉ key → 58 ∉ key →
      procWriteArg (key ++ 61 :: val) = .err .MissingPartitionName) ∧
    (∀ v : List Nat, 61 ∉ v → procWriteArg v = .err .MissingValue) ∧
    Error.MissingPartitionName ≠ Error.MissingValue ∧
    isInvalidInput .MissingPartitionName = true ∧ isInvalidInput .MissingValue = true := by
  refine ⟨?_, ?_, ?_, ?_, by decide, rfl, rfl⟩
  · intro f v h
    simp [procReadArg, splitOnce_eq_none h]
  · intro v h
    simp [procDeleteArg, splitOnce_eq_none h]
  · intro key val h61 h58
    simp [procWriteArg, splitOnce_append h61, splitOnce_eq_none h58]
  · intro v h
    simp [procWriteArg, splitOnce_eq_none h]

/-- Witness for C7: the token `"x"` has no `':'` and the write argument
`"x"` has no `'='`; the token `"x:y"` used as a write key `"x=..."` is
exercised through `"x=a"`. -/
theorem claim_C7_witness :
    procReadArg (fun _ _ => none) [120] = .bad .MissingPartitionName ∧
    procDeleteArg [120] = .error .MissingPartitionName ∧
    procWriteArg ([120] ++ 61 :: [97]) = .err .MissingPartitionName ∧
    procWriteArg [120] = .err .MissingValue :=
  ⟨claim_C7_theorem.1 (fun _ _ => none) [120] (by decide),
   claim_C7_theorem.2.1 [120] (by decide),
   claim_C7_theorem.2.2.1 [120] [97] (by decide) (by decide),
   claim_C7_theorem.2.2.2.1 [120] (by decide)⟩

/-- Claim C8: in every execution of the `write` and `delete` subcommands
— whatever the arguments and whatever `apply` returns —
`prepare_for_write` is called exactly once, and it is the very first
container operation, so it precedes every `insert_variable`,
`remove_variable`, writer construction and `apply` in the trace. -/
theorem claim_C8_theorem :
    ∀ (args : List (List Nat)) (r : Except Error Unit),
      ((writeCmd args r).1.head? = some Event.prepare ∧
        (writeCmd args r).1.count Event.prepare = 1) ∧
      ((deleteCmd args r).1.head? = some Event.prepare ∧
        (deleteCmd args r).1.count Event.prepare = 1) := by
  intro args r
  refine ⟨⟨rfl, ?_⟩, ⟨rfl, ?_⟩⟩
  · show (Event.prepare :: (writeGo r args).1).count Event.prepare = 1
    rw [List.count_cons_self, List.count_eq_zero.mpr (writeGo_no_prepare r args)]
  · show (Event.prepare :: (deleteGo r args).1).count Event.prepare = 1
    rw [List.count_cons_self, List.count_eq_zero.mpr (deleteGo_no_prepare r args)]

/-- Claim C9: the conversion from `apple_nvram::Error` to the CLI `Error`
is injective and maps `ParseError` to `Parse`, `SectionTooBig` to
`SectionTooBig`, and `ApplyError(e)` to `ApplyError` carrying the same
payload, so the three kinds stay distinct, inspectable values. -/
theorem claim_C9_theorem :
    (∀ x y : NvError, errorFromNv x = errorFromNv y → x = y) ∧
    errorFromNv .ParseError = .Parse ∧
    errorFromNv .SectionTooBig = .SectionTooBig ∧
    (∀ e : IoError, errorFromNv (.ApplyError e) = .ApplyError e) := by
  refine ⟨?_, rfl, rfl, fun _ => rfl⟩
  intro x y h
  cases x <;> cases y <;> simp_all [errorFromNv]

/-- Witness for C9: injectivity applied at the concrete pair of equal
`ApplyError` values with payload 5. -/
theorem claim_C9_witness : NvError.ApplyError 5 = NvError.ApplyError 5 :=
  claim_C9_theorem.1 (NvError.ApplyError 5) (NvError.ApplyError 5) rfl

/-- Claim C10: in the `read` subcommand with explicit arguments, when
every argument before `a` resolves to a present variable and `a` parses
but is absent from the active partition, the whole invocation stops at
`a` with `VariableNotFound` — the run is identical to one whose argument
list ends at `a`, so the arguments after `a` are neither looked up nor
printed — while the values of the arguments before `a` have already been
printed (they appear in the trace). -/
theorem claim_C10_theorem (f : VarType → List Nat → Option (List Nat)) (pre : List (List Nat))
    (a : List Nat) (post : List (List Nat)) (t : VarType) (n : List Nat)
    (hpre : ∀ b ∈ pre, ∃ t' n' v', procReadArg f b = .found t' n' v')
    (habs : procReadArg f a = .absent t n) :
    readCmd f (pre ++ a :: post) = readCmd f (pre ++ [a]) ∧
    (readCmd f (pre ++ a :: post)).2 = .err .VariableNotFound ∧
    (∀ b ∈ pre, ∀ t' n' v', procReadArg f b = .found t' n' v' →
      Event.print v' ∈ (readCmd f (pre ++ a :: post)).1) :=
  readCmd_stops f pre a post t n hpre habs

/-- Witness for C10: looking up `common:x` (present, value byte 1), then
`common:y` (absent), then a junk argument `z`: the run equals the run
without `z` and ends in `VariableNotFound`, with the value of `common:x`
printed. -/
theorem claim_C10_witness :
    readCmd (fun _ n => if n = [120] then some [1] else none)
        ([[99, 111, 109, 109, 111, 110, 58, 120]] ++ [99, 111, 109, 109, 111, 110, 58, 121] :: [[122]]) =
      readCmd (fun _ n => if n = [120] then some [1] else none)
        ([[99, 111, 109, 109, 111, 110, 58, 120]] ++ [[99, 111, 109, 109, 111, 110, 58, 121]]) ∧
    (readCmd (fun _ n => if n = [120] then some [1] else none)
        ([[99, 111, 109, 109, 111, 110, 58, 120]] ++ [99, 111, 109, 109, 111, 110, 58, 121] :: [[122]])).2 =
      .err .VariableNotFound :=
  have h := claim_C10_theorem (fun _ n => if n = [120] then some [1] else none)
    [[99, 111, 109, 109, 111, 110, 58, 120]] [99, 111, 109, 109, 111, 110, 58, 121] [[122]]
    .Common [121]
    (by
      intro b hb
      rw [List.mem_singleton] at hb
      subst hb
      exact ⟨.Common, [120], [1], rfl⟩)
    rfl
  ⟨h.1, h.2.1⟩

end AsahiNvram
